import Mathlib

/-!
Verification of the batch LLM task runner and the kanban dependency planner
of the mkSkills repository.

The development shallowly embeds two source files:

* `kanban-planner.js` (dependency extraction, dependency-graph construction,
  topological wave scheduling): `parseDependencies` is a regex scan of free
  text, embedded here as an explicit extraction-function parameter
  `parseDeps : String → List String` (every theorem about the graph and the
  scheduler holds for an arbitrary extraction function, hence in particular
  for the concrete regex of the source); `buildDependencyGraph` and
  `topologicalSort` are translated line by line.

* `batch-llm-runner.js` + `shared.js` (the `BatchRunner` engine):
  `runCodeagent`'s child-process interaction is embedded as a function of the
  observable child behaviour (timeout / close with exit code / spawn error);
  the concurrency pool `runWithConcurrency` is embedded as a small-step
  transition relation; `BatchRunner.run` is embedded as a pure function of
  the checkpoint file content, the scan result and the per-item handler
  outcome. JavaScript `Map`s and `Set`s are embedded as association lists
  and lists used for membership only; iteration order is insertion order,
  matching the JS semantics.
-/

namespace MkSkills

/-! ## Dependency planner: data model (kanban-planner.js) -/

/-- TaskRecord: planner input, a read-only snapshot of one kanban task
(`{id, title, description, priority}`); `priority` is a JS number, embedded
as `Int`. -/
structure TaskRecord where
  id : String
  title : String
  description : String
  priority : Int
deriving DecidableEq, Repr

/-- DependencyGraphNode: the value stored in the planner's `Map` for a task
id — `{task, deps, priority, dependents}` (kanban-planner.js lines 117-122). -/
structure GNode where
  task : TaskRecord
  deps : List String
  priority : Int
  dependents : List String
deriving DecidableEq, Repr

/-- The dependency graph: a JS `Map` from task id to node, embedded as an
association list in insertion order. -/
abbrev Graph := List (String × GNode)

/-- The id set of the graph, in insertion order (`graph.keys()`). -/
def keys (g : Graph) : List String := g.map (fun p => p.1)

/-- `graph.get(id)`, as an association-list lookup on the first matching key
(the graphs built below have pairwise-distinct keys). -/
def findNode (g : Graph) (id : String) : Option GNode :=
  (g.find? (fun p => p.1 == id)).map (fun p => p.2)

/-- The dependency list of a node (`graph.get(id).deps`); `[]` for an id not
in the graph. -/
def depsOf (g : Graph) (id : String) : List String :=
  ((findNode g id).map GNode.deps).getD []

/-- The priority of a node (`graph.get(id).priority`); `0` for an id not in
the graph. -/
def prioOf (g : Graph) (id : String) : Int :=
  ((findNode g id).map GNode.priority).getD 0

/-! ## buildDependencyGraph (kanban-planner.js lines 110-136)

The regex extraction `parseDependencies` is passed in as `parseDeps`. The
second pass that fills the `dependents` back-edges is `fillDependents`. -/

/-- One step of the `dependents` back-fill: `graph.get(dep).dependents.push(id)`
(kanban-planner.js lines 127-131). -/
def pushDependent (g : Graph) (dep : String) (id : String) : Graph :=
  g.map (fun p =>
    if p.1 = dep then (p.1, { p.2 with dependents := p.2.dependents ++ [id] }) else p)

/-- Second pass of `buildDependencyGraph`: for every node in iteration order,
for every dep in order, push the node's id onto the dep's `dependents`
(kanban-planner.js lines 126-133). -/
def fillDependents (g : Graph) : Graph :=
  g.foldl (fun acc p => p.2.deps.foldl (fun acc2 d => pushDependent acc2 d p.1) acc) g

/-- `buildDependencyGraph(tasks)` (kanban-planner.js lines 110-136): one node
per task, `deps` filtered to ids that exist in the task set, then the
`dependents` back-fill. -/
def buildDependencyGraph (parseDeps : String → List String) (tasks : List TaskRecord) : Graph :=
  fillDependents (tasks.map (fun t =>
    (t.id, { task := t,
             deps := (parseDeps t.description).filter
               (fun d => (tasks.map (fun x => x.id)).contains d),
             priority := t.priority,
             dependents := [] })))

/-! ## topologicalSort (kanban-planner.js lines 142-178) -/

/-- The wave-eligibility test of the loop body:
`node.deps.every((d) => completed.has(d))` (kanban-planner.js line 151). -/
def readyPred (g : Graph) (completed : List String) (id : String) : Bool :=
  (depsOf g id).all (fun d => completed.contains d)

/-- One insertion step of the stable ascending sort modelling
`ready.sort((a, b) => pa - pb)` (kanban-planner.js lines 163-167). -/
def insertPrio (g : Graph) (x : String) : List String → List String
  | [] => [x]
  | y :: ys => if prioOf g x ≤ prioOf g y then x :: y :: ys else y :: insertPrio g x ys

/-- Stable insertion sort by ascending node priority. `Array.prototype.sort`
is stable (ES2019), and a stable comparison sort's output is uniquely
determined by the comparator, so this is the exact output of the source's
`ready.sort((a, b) => pa - pb)`. -/
def sortPrio (g : Graph) : List String → List String
  | [] => []
  | x :: xs => insertPrio g x (sortPrio g xs)

/-- Result of `topologicalSort`: the returned `waves`, plus `stuck`, the
`remaining` id set printed by the
`console.error("Circular dependency detected! ...")` report on line 158
(`[]` when the loop drained every task and no report was made). -/
structure TopoResult where
  waves : List (List String)
  stuck : List String
deriving DecidableEq, Repr

/-- The `while (remaining.size > 0)` loop of `topologicalSort`
(kanban-planner.js lines 147-175). The loop removes at least one id per
productive iteration, so `fuel := remaining.length` makes the structural
recursion exhaust `remaining` exactly as the source loop does; every lemma
below carries the sufficiency hypothesis `remaining.length ≤ fuel`, and the
fuel-exhausted branch agrees with the stuck branch. -/
def topoLoop (g : Graph) : Nat → List String → List String → TopoResult
  | 0, remaining, _ => if remaining.isEmpty then ⟨[], []⟩ else ⟨[], remaining⟩
  | fuel + 1, remaining, completed =>
    if remaining.isEmpty then ⟨[], []⟩
    else
      let ready := remaining.filter (readyPred g completed)
      if ready.isEmpty then ⟨[], remaining⟩
      else
        let wave := sortPrio g ready
        let r := topoLoop g fuel
          (remaining.filter (fun id => ! readyPred g completed id)) (completed ++ wave)
        ⟨wave :: r.waves, r.stuck⟩

/-- `topologicalSort(graph)` (kanban-planner.js lines 142-178): start from
`remaining = new Set(graph.keys())`, `completed = new Set()`. -/
def topologicalSort (g : Graph) : TopoResult :=
  topoLoop g (keys g).length (keys g) []

/-- The planning pipeline of `main` (kanban-planner.js lines 369-370):
`waves = topologicalSort(buildDependencyGraph(tasks))`. -/
def planWaves (parseDeps : String → List String) (tasks : List TaskRecord) : TopoResult :=
  topologicalSort (buildDependencyGraph parseDeps tasks)

/-- Acyclicity of a finite dependency graph, stated as the existence of a
rank function that strictly decreases along every dependency edge; for a
finite graph this is equivalent to the absence of a dependency cycle. -/
def Acyclic (g : Graph) : Prop :=
  ∃ rank : String → Nat, ∀ id ∈ keys g, ∀ d ∈ depsOf g id, rank d < rank id

/-! ## Helper lemmas: the stable priority sort -/

theorem insertPrio_perm (g : Graph) (x : String) (l : List String) :
    List.Perm (insertPrio g x l) (x :: l) := by
  induction l with
  | nil => simp [insertPrio]
  | cons y ys ih =>
    simp only [insertPrio]
    split
    · exact List.Perm.refl _
    · exact (List.Perm.cons y ih).trans (List.Perm.swap x y ys)

theorem sortPrio_perm (g : Graph) (l : List String) :
    List.Perm (sortPrio g l) l := by
  induction l with
  | nil => simp [sortPrio]
  | cons x xs ih =>
    exact (insertPrio_perm g x (sortPrio g xs)).trans (List.Perm.cons x ih)

theorem mem_sortPrio (g : Graph) (a : String) (l : List String) :
    a ∈ sortPrio g l ↔ a ∈ l :=
  (sortPrio_perm g l).mem_iff

theorem insertPrio_sorted (g : Graph) (x : String) (l : List String)
    (h : List.Pairwise (fun a b => prioOf g a ≤ prioOf g b) l) :
    List.Pairwise (fun a b => prioOf g a ≤ prioOf g b) (insertPrio g x l) := by
  induction l with
  | nil => simp [insertPrio]
  | cons y ys ih =>
    rcases List.pairwise_cons.mp h with ⟨hy, hys⟩
    simp only [insertPrio]
    split
    · rename_i hxy
      refine List.pairwise_cons.mpr ⟨?_, h⟩
      intro b hb
      rcases List.mem_cons.mp hb with rfl | hb
      · exact hxy
      · exact le_trans hxy (hy b hb)
    · rename_i hxy
      refine List.pairwise_cons.mpr ⟨?_, ih hys⟩
      intro b hb
      rcases List.mem_cons.mp ((insertPrio_perm g x ys).mem_iff.mp hb) with rfl | hb
      · exact le_of_not_le hxy
      · exact hy b hb

theorem sortPrio_sorted (g : Graph) (l : List String) :
    List.Pairwise (fun a b => prioOf g a ≤ prioOf g b) (sortPrio g l) := by
  induction l with
  | nil => simp [sortPrio]
  | cons x xs ih => exact insertPrio_sorted g x (sortPrio g xs) ih

/-! ## Helper lemmas: one-step unfoldings of the topological-sort loop -/

theorem topoLoop_nil (g : Graph) (fuel : Nat) (C : List String) :
    topoLoop g fuel [] C = ⟨[], []⟩ := by
  cases fuel <;> simp [topoLoop]

theorem topoLoop_zero (g : Graph) (R C : List String) (hR : R ≠ []) :
    topoLoop g 0 R C = ⟨[], R⟩ := by
  simp [topoLoop, hR]

theorem topoLoop_stuck (g : Graph) (fuel : Nat) (R C : List String) (hR : R ≠ [])
    (h : R.filter (readyPred g C) = []) :
    topoLoop g (fuel + 1) R C = ⟨[], R⟩ := by
  simp [topoLoop, hR, h]

theorem topoLoop_step (g : Graph) (fuel : Nat) (R C : List String) (hR : R ≠ [])
    (h : R.filter (readyPred g C) ≠ []) :
    topoLoop g (fuel + 1) R C =
      ⟨sortPrio g (R.filter (readyPred g C)) ::
         (topoLoop g fuel (R.filter (fun id => ! readyPred g C id))
           (C ++ sortPrio g (R.filter (readyPred g C)))).waves,
       (topoLoop g fuel (R.filter (fun id => ! readyPred g C id))
           (C ++ sortPrio g (R.filter (readyPred g C)))).stuck⟩ := by
  simp [topoLoop, hR, h]

/-- The two filters of a loop iteration split `remaining` into a permutation;
in particular the un-ready remainder is strictly shorter when some task is
ready. -/
theorem remaining_split (g : Graph) (R C : List String) :
    List.Perm (R.filter (readyPred g C) ++ R.filter (fun id => ! readyPred g C id)) R :=
  List.filter_append_perm (readyPred g C) R

theorem remaining_shrinks (g : Graph) (R C : List String)
    (h : R.filter (readyPred g C) ≠ []) :
    (R.filter (fun id => ! readyPred g C id)).length < R.length := by
  have hlen := (remaining_split g R C).length_eq
  rw [List.length_append] at hlen
  have hpos : 0 < (R.filter (readyPred g C)).length := List.length_pos.mpr h
  omega

theorem readyPred_iff (g : Graph) (C : List String) (id : String) :
    readyPred g C id = true ↔ ∀ d ∈ depsOf g id, d ∈ C := by
  simp [readyPred, List.all_eq_true, List.elem_iff]

/-! ## Helper lemmas: soundness, coverage, completeness of the wave loop -/

/-- Deps of every wave member lie in the completed set accumulated before
that wave. -/
def WavesSound (g : Graph) : List String → List (List String) → Prop
  | _, [] => True
  | C, w :: ws => (∀ id ∈ w, ∀ d ∈ depsOf g id, d ∈ C) ∧ WavesSound g (C ++ w) ws

theorem topoLoop_waves_sound (g : Graph) :
    ∀ (fuel : Nat) (R C : List String), WavesSound g C (topoLoop g fuel R C).waves := by
  intro fuel
  induction fuel with
  | zero =>
    intro R C
    rcases eq_or_ne R [] with rfl | hR
    · rw [topoLoop_nil]; trivial
    · rw [topoLoop_zero g R C hR]; trivial
  | succ fuel ih =>
    intro R C
    rcases eq_or_ne R [] with rfl | hR
    · rw [topoLoop_nil]; trivial
    · rcases eq_or_ne (R.filter (readyPred g C)) [] with hrdy | hrdy
      · rw [topoLoop_stuck g fuel R C hR hrdy]; trivial
      · rw [topoLoop_step g fuel R C hR hrdy]
        refine ⟨?_, ih _ _⟩
        intro id hid d hd
        have hmem : id ∈ R.filter (readyPred g C) := (mem_sortPrio g id _).mp hid
        exact (readyPred_iff g C id).mp (List.mem_filter.mp hmem).2 d hd

/-- From `WavesSound` to the indexed statement: every dependency of a task in
wave `i` lies in the concatenation of the waves before `i` (or in the
initially completed set). -/
theorem WavesSound.deps_mem_take (g : Graph) :
    ∀ (ws : List (List String)) (C : List String), WavesSound g C ws →
      ∀ i, i < ws.length → ∀ id ∈ ws.getD i [], ∀ d ∈ depsOf g id,
        d ∈ C ∨ d ∈ (ws.take i).flatten := by
  intro ws
  induction ws with
  | nil => intro C _ i hi; simp at hi
  | cons w ws ih =>
    intro C hsound i hi id hid d hd
    rcases hsound with ⟨hw, hws⟩
    cases i with
    | zero =>
      left
      exact hw id (by simpa using hid) d hd
    | succ i =>
      have hi' : i < ws.length := by simpa using hi
      have := ih (C ++ w) hws i hi' id (by simpa using hid) d hd
      rcases this with hCw | htake
      · rcases List.mem_append.mp hCw with h | h
        · exact Or.inl h
        · refine Or.inr ?_
          simp only [List.take_succ_cons, List.flatten_cons, List.mem_append]
          exact Or.inl h
      · refine Or.inr ?_
        simp only [List.take_succ_cons, List.flatten_cons, List.mem_append]
        exact Or.inr htake

/-- Coverage: the scheduled waves together with the stuck report form a
permutation of the ids the loop started from. -/
theorem topoLoop_cover (g : Graph) :
    ∀ (fuel : Nat) (R C : List String), R.length ≤ fuel →
      List.Perm ((topoLoop g fuel R C).waves.flatten ++ (topoLoop g fuel R C).stuck) R := by
  intro fuel
  induction fuel with
  | zero =>
    intro R C hlen
    have hR : R = [] := List.length_eq_zero.mp (Nat.le_zero.mp hlen)
    subst hR
    rw [topoLoop_nil]
    simp
  | succ fuel ih =>
    intro R C hlen
    rcases eq_or_ne R [] with rfl | hR
    · rw [topoLoop_nil]; simp
    · rcases eq_or_ne (R.filter (readyPred g C)) [] with hrdy | hrdy
      · rw [topoLoop_stuck g fuel R C hR hrdy]; simp
      · rw [topoLoop_step g fuel R C hR hrdy]
        have hshrink := remaining_shrinks g R C hrdy
        have hrec := ih (R.filter (fun id => ! readyPred g C id))
          (C ++ sortPrio g (R.filter (readyPred g C))) (by omega)
        simp only [List.flatten_cons]
        rw [List.append_assoc]
        exact (List.Perm.append (sortPrio_perm g _) hrec).trans (remaining_split g R C)

theorem exists_rank_min (f : String → Nat) :
    ∀ (l : List String), l ≠ [] → ∃ a ∈ l, ∀ b ∈ l, f a ≤ f b := by
  intro l
  induction l with
  | nil => intro h; exact absurd rfl h
  | cons x xs ih =>
    intro _
    rcases eq_or_ne xs [] with rfl | hxs
    · exact ⟨x, by simp, by simp⟩
    · rcases ih hxs with ⟨a, ha, hmin⟩
      rcases le_total (f x) (f a) with h | h
      · refine ⟨x, by simp, ?_⟩
        intro b hb
        rcases List.mem_cons.mp hb with rfl | hb
        · exact le_refl _
        · exact le_trans h (hmin b hb)
      · refine ⟨a, List.mem_cons_of_mem x ha, ?_⟩
        intro b hb
        rcases List.mem_cons.mp hb with rfl | hb
        · exact h
        · exact hmin b hb

/-- Completeness: on an acyclic graph (witnessed by a rank function) the loop
never reports a stuck set. -/
theorem topoLoop_no_stuck (g : Graph) (rank : String → Nat)
    (hrank : ∀ id ∈ keys g, ∀ d ∈ depsOf g id, rank d < rank id) :
    ∀ (fuel : Nat) (R C : List String), R.length ≤ fuel →
      (∀ id ∈ R, id ∈ keys g) →
      (∀ id ∈ R, ∀ d ∈ depsOf g id, d ∈ C ∨ d ∈ R) →
      (topoLoop g fuel R C).stuck = [] := by
  intro fuel
  induction fuel with
  | zero =>
    intro R C hlen _ _
    have hR : R = [] := List.length_eq_zero.mp (Nat.le_zero.mp hlen)
    subst hR
    rw [topoLoop_nil]
  | succ fuel ih =>
    intro R C hlen hkeys hinv
    rcases eq_or_ne R [] with rfl | hR
    · rw [topoLoop_nil]
    · rcases eq_or_ne (R.filter (readyPred g C)) [] with hrdy | hrdy
      · -- stuck branch is impossible on an acyclic graph: a minimal-rank
        -- remaining task would have all deps completed
        exfalso
        have hnone : ∀ id ∈ R, ∃ d, d ∈ depsOf g id ∧ d ∈ R := by
          intro id hid
          have hnotready : ¬ readyPred g C id = true := by
            intro hready
            have : id ∈ R.filter (readyPred g C) := List.mem_filter.mpr ⟨hid, hready⟩
            rw [hrdy] at this
            exact absurd this (List.not_mem_nil id)
          have : ¬ ∀ d ∈ depsOf g id, d ∈ C := fun h => hnotready ((readyPred_iff g C id).mpr h)
          push_neg at this
          rcases this with ⟨d, hd, hdC⟩
          rcases hinv id hid d hd with h | h
          · exact absurd h hdC
          · exact ⟨d, hd, h⟩
        rcases exists_rank_min rank R hR with ⟨m, hm, hmin⟩
        rcases hnone m hm with ⟨d, hd, hdR⟩
        have hlt : rank d < rank m := hrank m (hkeys m hm) d hd
        exact absurd (hmin d hdR) (not_le.mpr hlt)
      · rw [topoLoop_step g fuel R C hR hrdy]
        have hshrink := remaining_shrinks g R C hrdy
        refine ih (R.filter (fun id => ! readyPred g C id))
          (C ++ sortPrio g (R.filter (readyPred g C))) (by omega) ?_ ?_
        · intro id hid
          exact hkeys id (List.mem_filter.mp hid).1
        · intro id hid d hd
          have hidR : id ∈ R := (List.mem_filter.mp hid).1
          rcases hinv id hidR d hd with h | h
          · exact Or.inl (List.mem_append.mpr (Or.inl h))
          · by_cases hready : readyPred g C d = true
            · refine Or.inl (List.mem_append.mpr (Or.inr ?_))
              exact (mem_sortPrio g d _).mpr (List.mem_filter.mpr ⟨h, hready⟩)
            · refine Or.inr (List.mem_filter.mpr ⟨h, ?_⟩)
              simp [hready]

/-- On a graph with a stuck cycle set `S` (every member depends on a member),
no member of `S` is ever scheduled into a wave, and the stuck report names a
nonempty set containing all of `S`. -/
theorem topoLoop_cycle_stuck (g : Graph) (S : List String) (hS : S ≠ [])
    (hcyc : ∀ s ∈ S, ∃ d, d ∈ depsOf g s ∧ d ∈ S) :
    ∀ (fuel : Nat) (R C : List String), (∀ s ∈ S, s ∈ R) → (∀ s ∈ S, s ∉ C) →
      (∀ w ∈ (topoLoop g fuel R C).waves, ∀ s ∈ S, s ∉ w) ∧
      (∀ s ∈ S, s ∈ (topoLoop g fuel R C).stuck) ∧
      (topoLoop g fuel R C).stuck ≠ [] := by
  have hnotready : ∀ (C : List String), (∀ s ∈ S, s ∉ C) →
      ∀ s ∈ S, ¬ readyPred g C s = true := by
    intro C hC s hs hready
    rcases hcyc s hs with ⟨d, hd, hdS⟩
    exact absurd ((readyPred_iff g C s).mp hready d hd) (hC d hdS)
  have hSne : ∃ s0, s0 ∈ S := List.exists_mem_of_ne_nil S hS
  intro fuel
  induction fuel with
  | zero =>
    intro R C hSR _
    rcases hSne with ⟨s0, hs0⟩
    have hR : R ≠ [] := fun h => absurd (h ▸ hSR s0 hs0) (List.not_mem_nil s0)
    rw [topoLoop_zero g R C hR]
    exact ⟨by intro w hw; simp at hw, fun s hs => hSR s hs,
      fun h => absurd (h ▸ hSR s0 hs0) (List.not_mem_nil s0)⟩
  | succ fuel ih =>
    intro R C hSR hSC
    rcases hSne with ⟨s0, hs0⟩
    have hR : R ≠ [] := fun h => absurd (h ▸ hSR s0 hs0) (List.not_mem_nil s0)
    rcases eq_or_ne (R.filter (readyPred g C)) [] with hrdy | hrdy
    · rw [topoLoop_stuck g fuel R C hR hrdy]
      exact ⟨by intro w hw; simp at hw, fun s hs => hSR s hs,
        fun h => absurd (h ▸ hSR s0 hs0) (List.not_mem_nil s0)⟩
    · rw [topoLoop_step g fuel R C hR hrdy]
      have hSwave : ∀ s ∈ S, s ∉ sortPrio g (R.filter (readyPred g C)) := by
        intro s hs hmem
        have := (List.mem_filter.mp ((mem_sortPrio g s _).mp hmem)).2
        exact hnotready C hSC s hs this
      have hrec := ih (R.filter (fun id => ! readyPred g C id))
        (C ++ sortPrio g (R.filter (readyPred g C)))
        (by
          intro s hs
          refine List.mem_filter.mpr ⟨hSR s hs, ?_⟩
          have := hnotready C hSC s hs
          simp [this])
        (by
          intro s hs hmem
          rcases List.mem_append.mp hmem with h | h
          · exact hSC s hs h
          · exact hSwave s hs h)
      refine ⟨?_, hrec.2.1, hrec.2.2⟩
      intro w hw s hs
      rcases List.mem_cons.mp hw with rfl | hw
      · exact hSwave s hs
      · exact hrec.1 w hw s hs

/-- Every wave the loop emits is sorted by ascending priority. -/
theorem topoLoop_waves_sorted (g : Graph) :
    ∀ (fuel : Nat) (R C : List String), ∀ w ∈ (topoLoop g fuel R C).waves,
      List.Pairwise (fun a b => prioOf g a ≤ prioOf g b) w := by
  intro fuel
  induction fuel with
  | zero =>
    intro R C w hw
    rcases eq_or_ne R [] with rfl | hR
    · rw [topoLoop_nil] at hw; simp at hw
    · rw [topoLoop_zero g R C hR] at hw; simp at hw
  | succ fuel ih =>
    intro R C w hw
    rcases eq_or_ne R [] with rfl | hR
    · rw [topoLoop_nil] at hw; simp at hw
    · rcases eq_or_ne (R.filter (readyPred g C)) [] with hrdy | hrdy
      · rw [topoLoop_stuck g fuel R C hR hrdy] at hw; simp at hw
      · rw [topoLoop_step g fuel R C hR hrdy] at hw
        rcases List.mem_cons.mp hw with rfl | hw
        · exact sortPrio_sorted g _
        · exact ih _ _ w hw

/-! ## Helper lemmas: buildDependencyGraph -/

theorem keys_pushDependent (g : Graph) (d i : String) :
    keys (pushDependent g d i) = keys g := by
  unfold keys pushDependent
  rw [List.map_map]
  apply List.map_congr_left
  intro p _
  by_cases h : p.1 = d <;> simp [h]

theorem depsOf_pushDependent (g : Graph) (d i x : String) :
    depsOf (pushDependent g d i) x = depsOf g x := by
  unfold depsOf findNode pushDependent
  rw [List.find?_map]
  have hcomp : ((fun p : String × GNode => p.1 == x) ∘ (fun p : String × GNode =>
      if p.1 = d then (p.1, { p.2 with dependents := p.2.dependents ++ [i] }) else p))
      = fun p : String × GNode => p.1 == x := by
    funext p
    by_cases h : p.1 = d <;> simp [h]
  rw [hcomp]
  cases hf : g.find? (fun p => p.1 == x) with
  | none => simp
  | some p => by_cases h : p.1 = d <;> simp [h]

theorem prioOf_pushDependent (g : Graph) (d i x : String) :
    prioOf (pushDependent g d i) x = prioOf g x := by
  unfold prioOf findNode pushDependent
  rw [List.find?_map]
  have hcomp : ((fun p : String × GNode => p.1 == x) ∘ (fun p : String × GNode =>
      if p.1 = d then (p.1, { p.2 with dependents := p.2.dependents ++ [i] }) else p))
      = fun p : String × GNode => p.1 == x := by
    funext p
    by_cases h : p.1 = d <;> simp [h]
  rw [hcomp]
  cases hf : g.find? (fun p => p.1 == x) with
  | none => simp
  | some p => by_cases h : p.1 = d <;> simp [h]

theorem keys_foldl_push (i : String) :
    ∀ (ds : List String) (acc : Graph),
      keys (ds.foldl (fun a d => pushDependent a d i) acc) = keys acc := by
  intro ds
  induction ds with
  | nil => intro acc; rfl
  | cons d ds ih => intro acc; rw [List.foldl_cons, ih, keys_pushDependent]

theorem depsOf_foldl_push (i : String) :
    ∀ (ds : List String) (acc : Graph) (x : String),
      depsOf (ds.foldl (fun a d => pushDependent a d i) acc) x = depsOf acc x := by
  intro ds
  induction ds with
  | nil => intro acc x; rfl
  | cons d ds ih => intro acc x; rw [List.foldl_cons, ih, depsOf_pushDependent]

theorem prioOf_foldl_push (i : String) :
    ∀ (ds : List String) (acc : Graph) (x : String),
      prioOf (ds.foldl (fun a d => pushDependent a d i) acc) x = prioOf acc x := by
  intro ds
  induction ds with
  | nil => intro acc x; rfl
  | cons d ds ih => intro acc x; rw [List.foldl_cons, ih, prioOf_pushDependent]

theorem keys_fillDependents_aux :
    ∀ (l : List (String × GNode)) (acc : Graph),
      keys (l.foldl (fun a p => p.2.deps.foldl (fun a2 d => pushDependent a2 d p.1) a) acc)
        = keys acc := by
  intro l
  induction l with
  | nil => intro acc; rfl
  | cons p l ih => intro acc; rw [List.foldl_cons, ih, keys_foldl_push]

theorem depsOf_fillDependents_aux :
    ∀ (l : List (String × GNode)) (acc : Graph) (x : String),
      depsOf (l.foldl (fun a p => p.2.deps.foldl (fun a2 d => pushDependent a2 d p.1) a) acc) x
        = depsOf acc x := by
  intro l
  induction l with
  | nil => intro acc x; rfl
  | cons p l ih => intro acc x; rw [List.foldl_cons, ih, depsOf_foldl_push]

theorem keys_fillDependents (g : Graph) : keys (fillDependents g) = keys g :=
  keys_fillDependents_aux g g

theorem depsOf_fillDependents (g : Graph) (x : String) :
    depsOf (fillDependents g) x = depsOf g x :=
  depsOf_fillDependents_aux g g x

theorem keys_build (parseDeps : String → List String) (tasks : List TaskRecord) :
    keys (buildDependencyGraph parseDeps tasks) = tasks.map (fun t => t.id) := by
  unfold buildDependencyGraph
  rw [keys_fillDependents]
  unfold keys
  rw [List.map_map]
  rfl

theorem find?_id_eq (tasks : List TaskRecord) (t : TaskRecord)
    (hnd : (tasks.map (fun x => x.id)).Nodup) (ht : t ∈ tasks) :
    tasks.find? (fun x => x.id == t.id) = some t := by
  induction tasks with
  | nil => simp at ht
  | cons a rest ih =>
    rw [List.map_cons, List.nodup_cons] at hnd
    rcases List.mem_cons.mp ht with rfl | ht
    · simp [List.find?]
    · have hne : ¬ a.id = t.id := by
        intro h
        exact hnd.1 (h ▸ List.mem_map_of_mem (fun x => x.id) ht)
      have hfalse : (a.id == t.id) = false := by simp [hne]
      simp only [List.find?_cons, hfalse]
      exact ih hnd.2 ht

theorem depsOf_build (parseDeps : String → List String) (tasks : List TaskRecord)
    (t : TaskRecord) (hnd : (tasks.map (fun x => x.id)).Nodup) (ht : t ∈ tasks) :
    depsOf (buildDependencyGraph parseDeps tasks) t.id
      = (parseDeps t.description).filter
          (fun d => (tasks.map (fun x => x.id)).contains d) := by
  unfold buildDependencyGraph
  rw [depsOf_fillDependents]
  unfold depsOf findNode
  rw [List.find?_map]
  have hcomp : ∀ (f : TaskRecord → String × GNode), (∀ x, (f x).1 = x.id) →
      ((fun p : String × GNode => p.1 == t.id) ∘ f) = fun x => x.id == t.id := by
    intro f hf
    funext x
    simp [hf x]
  rw [hcomp _ (fun x => rfl), find?_id_eq tasks t hnd ht]
  rfl

theorem depsOf_of_find?_none (g : Graph) (x : String)
    (h : g.find? (fun p => p.1 == x) = none) : depsOf g x = [] := by
  unfold depsOf findNode
  rw [h]
  rfl

theorem depsOf_of_find?_some (g : Graph) (x : String) (q : String × GNode)
    (h : g.find? (fun p => p.1 == x) = some q) : depsOf g x = q.2.deps := by
  unfold depsOf findNode
  rw [h]
  rfl

theorem depsOf_build_mem (parseDeps : String → List String) (tasks : List TaskRecord)
    (x d : String) (hd : d ∈ depsOf (buildDependencyGraph parseDeps tasks) x) :
    d ∈ tasks.map (fun t => t.id) := by
  rw [buildDependencyGraph, depsOf_fillDependents] at hd
  cases hq : (tasks.map (fun t =>
      (t.id, ({ task := t,
                deps := (parseDeps t.description).filter
                  (fun d => (tasks.map (fun x => x.id)).contains d),
                priority := t.priority,
                dependents := [] } : GNode)))).find? (fun p => p.1 == x) with
  | none =>
    rw [depsOf_of_find?_none _ _ hq] at hd
    exact absurd hd (List.not_mem_nil d)
  | some q =>
    rw [depsOf_of_find?_some _ _ _ hq] at hd
    have hqmem := List.mem_of_find?_eq_some hq
    rcases List.mem_map.mp hqmem with ⟨t0, _, rfl⟩
    have := (List.mem_filter.mp hd).2
    exact List.elem_iff.mp this

/-! ## Planner claims -/

/-- C2: for every acyclic dependency graph built by `buildDependencyGraph`,
the waves returned by `topologicalSort` satisfy: every task id appearing in
wave `i` has each of its deps in some wave with index strictly less than `i`
(equivalently, in the concatenation of the waves before `i`), and the
concatenation of all waves contains every task id of the graph exactly once
(it is duplicate-free and has exactly the graph's keys as members). -/
theorem topo_waves_sound_complete (parseDeps : String → List String)
    (tasks : List TaskRecord)
    (hnd : (tasks.map (fun t => t.id)).Nodup)
    (hacyc : Acyclic (buildDependencyGraph parseDeps tasks)) :
    (∀ i, i < (planWaves parseDeps tasks).waves.length →
      ∀ id ∈ (planWaves parseDeps tasks).waves.getD i [],
        ∀ d ∈ depsOf (buildDependencyGraph parseDeps tasks) id,
          d ∈ ((planWaves parseDeps tasks).waves.take i).flatten) ∧
    (planWaves parseDeps tasks).waves.flatten.Nodup ∧
    (∀ id, id ∈ (planWaves parseDeps tasks).waves.flatten ↔
      id ∈ keys (buildDependencyGraph parseDeps tasks)) := by
  obtain ⟨rank, hrank⟩ := hacyc
  have hstuck : (planWaves parseDeps tasks).stuck = [] := by
    simp only [planWaves, topologicalSort]
    refine topoLoop_no_stuck _ rank hrank _ _ [] (le_refl _) (fun id hid => hid) ?_
    intro id _ d hd
    right
    rw [keys_build]
    exact depsOf_build_mem parseDeps tasks id d hd
  have hcover := topoLoop_cover (buildDependencyGraph parseDeps tasks)
    (keys (buildDependencyGraph parseDeps tasks)).length
    (keys (buildDependencyGraph parseDeps tasks)) [] (le_refl _)
  rw [show topoLoop (buildDependencyGraph parseDeps tasks)
        (keys (buildDependencyGraph parseDeps tasks)).length
        (keys (buildDependencyGraph parseDeps tasks)) []
      = planWaves parseDeps tasks from rfl] at hcover
  rw [hstuck, List.append_nil] at hcover
  refine ⟨?_, ?_, ?_⟩
  · intro i hi id hid d hd
    have hsound := topoLoop_waves_sound (buildDependencyGraph parseDeps tasks)
      (keys (buildDependencyGraph parseDeps tasks)).length
      (keys (buildDependencyGraph parseDeps tasks)) []
    rw [show topoLoop (buildDependencyGraph parseDeps tasks)
          (keys (buildDependencyGraph parseDeps tasks)).length
          (keys (buildDependencyGraph parseDeps tasks)) []
        = planWaves parseDeps tasks from rfl] at hsound
    have := WavesSound.deps_mem_take (buildDependencyGraph parseDeps tasks)
      (planWaves parseDeps tasks).waves [] hsound i hi id hid d hd
    rcases this with h | h
    · exact absurd h (List.not_mem_nil d)
    · exact h
  · refine hcover.nodup_iff.mpr ?_
    rw [keys_build]
    exact hnd
  · intro id
    exact hcover.mem_iff

/-- Witness for C2 at the spec's example scenario
`{T1(dep:none,p=1), T2(dep:none,p=0), T3(dep:T1,p=0)}`. -/
theorem topo_waves_sound_complete_witness :
    ((([⟨"T1", "task one", "", 1⟩, ⟨"T2", "task two", "", 0⟩,
        ⟨"T3", "task three", "after: [T1]", 0⟩] : List TaskRecord).map
          (fun t => t.id)).Nodup ∧
     Acyclic (buildDependencyGraph (fun d => if d = "after: [T1]" then ["T1"] else [])
       [⟨"T1", "task one", "", 1⟩, ⟨"T2", "task two", "", 0⟩,
        ⟨"T3", "task three", "after: [T1]", 0⟩])) ∧
    ((∀ i, i < (planWaves (fun d => if d = "after: [T1]" then ["T1"] else [])
        [⟨"T1", "task one", "", 1⟩, ⟨"T2", "task two", "", 0⟩,
         ⟨"T3", "task three", "after: [T1]", 0⟩]).waves.length →
      ∀ id ∈ (planWaves (fun d => if d = "after: [T1]" then ["T1"] else [])
        [⟨"T1", "task one", "", 1⟩, ⟨"T2", "task two", "", 0⟩,
         ⟨"T3", "task three", "after: [T1]", 0⟩]).waves.getD i [],
        ∀ d ∈ depsOf (buildDependencyGraph (fun d => if d = "after: [T1]" then ["T1"] else [])
          [⟨"T1", "task one", "", 1⟩, ⟨"T2", "task two", "", 0⟩,
           ⟨"T3", "task three", "after: [T1]", 0⟩]) id,
          d ∈ ((planWaves (fun d => if d = "after: [T1]" then ["T1"] else [])
            [⟨"T1", "task one", "", 1⟩, ⟨"T2", "task two", "", 0⟩,
             ⟨"T3", "task three", "after: [T1]", 0⟩]).waves.take i).flatten) ∧
     (planWaves (fun d => if d = "after: [T1]" then ["T1"] else [])
        [⟨"T1", "task one", "", 1⟩, ⟨"T2", "task two", "", 0⟩,
         ⟨"T3", "task three", "after: [T1]", 0⟩]).waves.flatten.Nodup ∧
     (∀ id, id ∈ (planWaves (fun d => if d = "after: [T1]" then ["T1"] else [])
        [⟨"T1", "task one", "", 1⟩, ⟨"T2", "task two", "", 0⟩,
         ⟨"T3", "task three", "after: [T1]", 0⟩]).waves.flatten ↔
       id ∈ keys (buildDependencyGraph (fun d => if d = "after: [T1]" then ["T1"] else [])
        [⟨"T1", "task one", "", 1⟩, ⟨"T2", "task two", "", 0⟩,
         ⟨"T3", "task three", "after: [T1]", 0⟩]))) :=
  ⟨⟨by decide, ⟨fun id => if id = "T3" then 1 else 0, by decide⟩⟩,
   topo_waves_sound_complete (fun d => if d = "after: [T1]" then ["T1"] else [])
     [⟨"T1", "task one", "", 1⟩, ⟨"T2", "task two", "", 0⟩,
      ⟨"T3", "task three", "after: [T1]", 0⟩] (by decide)
     ⟨fun id => if id = "T3" then 1 else 0, by decide⟩⟩

/-- C4: for every task set containing a dependency cycle (a nonempty set `S`
of graph ids each of which depends on a member of `S`), `topologicalSort`
(a total function, so it terminates) returns waves in which no cycle member
appears, and its circular-dependency report names a nonempty stuck set that
contains every member of `S`; the cycle is never broken by an arbitrary
order. -/
theorem cycle_reported_and_excluded (parseDeps : String → List String)
    (tasks : List TaskRecord) (S : List String) (hS : S ≠ [])
    (hsub : ∀ s ∈ S, s ∈ keys (buildDependencyGraph parseDeps tasks))
    (hcyc : ∀ s ∈ S, ∃ d ∈ depsOf (buildDependencyGraph parseDeps tasks) s, d ∈ S) :
    (∀ w ∈ (planWaves parseDeps tasks).waves, ∀ s ∈ S, s ∉ w) ∧
    (∀ s ∈ S, s ∈ (planWaves parseDeps tasks).stuck) ∧
    (planWaves parseDeps tasks).stuck ≠ [] := by
  simp only [planWaves, topologicalSort]
  exact topoLoop_cycle_stuck _ S hS hcyc _ _ [] hsub
    (fun s _ h => absurd h (List.not_mem_nil s))

/-- Witness for C4 at the two-task cycle `A blocked by [B]`, `B depends on [A]`. -/
theorem cycle_reported_and_excluded_witness :
    ((["A", "B"] : List String) ≠ [] ∧
     (∀ s ∈ (["A", "B"] : List String),
       s ∈ keys (buildDependencyGraph
         (fun d => if d = "blocked by: [B]" then ["B"]
                   else if d = "depends on: [A]" then ["A"] else [])
         [⟨"A", "task a", "blocked by: [B]", 0⟩, ⟨"B", "task b", "depends on: [A]", 1⟩])) ∧
     (∀ s ∈ (["A", "B"] : List String),
       ∃ d ∈ depsOf (buildDependencyGraph
         (fun d => if d = "blocked by: [B]" then ["B"]
                   else if d = "depends on: [A]" then ["A"] else [])
         [⟨"A", "task a", "blocked by: [B]", 0⟩, ⟨"B", "task b", "depends on: [A]", 1⟩]) s,
         d ∈ (["A", "B"] : List String))) ∧
    ((∀ w ∈ (planWaves
        (fun d => if d = "blocked by: [B]" then ["B"]
                  else if d = "depends on: [A]" then ["A"] else [])
        [⟨"A", "task a", "blocked by: [B]", 0⟩,
         ⟨"B", "task b", "depends on: [A]", 1⟩]).waves, ∀ s ∈ (["A", "B"] : List String), s ∉ w) ∧
     (∀ s ∈ (["A", "B"] : List String), s ∈ (planWaves
        (fun d => if d = "blocked by: [B]" then ["B"]
                  else if d = "depends on: [A]" then ["A"] else [])
        [⟨"A", "task a", "blocked by: [B]", 0⟩,
         ⟨"B", "task b", "depends on: [A]", 1⟩]).stuck) ∧
     (planWaves
        (fun d => if d = "blocked by: [B]" then ["B"]
                  else if d = "depends on: [A]" then ["A"] else [])
        [⟨"A", "task a", "blocked by: [B]", 0⟩,
         ⟨"B", "task b", "depends on: [A]", 1⟩]).stuck ≠ []) :=
  ⟨⟨by decide, by decide, by decide⟩,
   cycle_reported_and_excluded
     (fun d => if d = "blocked by: [B]" then ["B"]
               else if d = "depends on: [A]" then ["A"] else [])
     [⟨"A", "task a", "blocked by: [B]", 0⟩, ⟨"B", "task b", "depends on: [A]", 1⟩]
     ["A", "B"] (by decide) (by decide) (by decide)⟩

/-- C5: within every single wave produced by `topologicalSort`, task ids are
ordered by ascending priority value of their graph node (priority 0 first). -/
theorem wave_sorted_by_priority (parseDeps : String → List String)
    (tasks : List TaskRecord) (w : List String)
    (hw : w ∈ (planWaves parseDeps tasks).waves) :
    List.Pairwise (fun a b =>
      prioOf (buildDependencyGraph parseDeps tasks) a ≤
      prioOf (buildDependencyGraph parseDeps tasks) b) w := by
  simp only [planWaves, topologicalSort] at hw
  exact topoLoop_waves_sorted _ _ _ _ w hw

/-- Witness for C5 at the spec's example wave
`{X(priority=2), Y(priority=0), Z(priority=1)}`, output in order `[Y, Z, X]`. -/
theorem wave_sorted_by_priority_witness :
    (["Y", "Z", "X"] ∈ (planWaves (fun _ => [])
      [⟨"X", "task x", "", 2⟩, ⟨"Y", "task y", "", 0⟩,
       ⟨"Z", "task z", "", 1⟩]).waves) ∧
    List.Pairwise (fun a b =>
      prioOf (buildDependencyGraph (fun _ => [])
        [⟨"X", "task x", "", 2⟩, ⟨"Y", "task y", "", 0⟩, ⟨"Z", "task z", "", 1⟩]) a ≤
      prioOf (buildDependencyGraph (fun _ => [])
        [⟨"X", "task x", "", 2⟩, ⟨"Y", "task y", "", 0⟩, ⟨"Z", "task z", "", 1⟩]) b)
      ["Y", "Z", "X"] :=
  ⟨by decide,
   wave_sorted_by_priority (fun _ => [])
     [⟨"X", "task x", "", 2⟩, ⟨"Y", "task y", "", 0⟩, ⟨"Z", "task z", "", 1⟩]
     ["Y", "Z", "X"] (by decide)⟩

/-- C7: a dependency reference to an id not present in the current task set
is dropped by `buildDependencyGraph`: a task's node deps are exactly the
parsed references filtered to existing task ids, so the task is scheduled
exactly as if the dangling reference were absent (the graph is unchanged
under any change of the extraction that preserves the existing-id
references); in particular a task all of whose references are dangling has
an empty dep list and appears in wave 0. -/
theorem dangling_refs_dropped (parseDeps : String → List String)
    (tasks : List TaskRecord) (t : TaskRecord)
    (hnd : (tasks.map (fun x => x.id)).Nodup) (ht : t ∈ tasks) :
    depsOf (buildDependencyGraph parseDeps tasks) t.id
      = (parseDeps t.description).filter
          (fun d => (tasks.map (fun x => x.id)).contains d) ∧
    ((∀ d ∈ parseDeps t.description, d ∉ tasks.map (fun x => x.id)) →
      depsOf (buildDependencyGraph parseDeps tasks) t.id = [] ∧
      ∃ w0 rest, (planWaves parseDeps tasks).waves = w0 :: rest ∧ t.id ∈ w0) ∧
    (∀ parseDeps2 : String → List String,
      (∀ desc, (parseDeps desc).filter (fun d => (tasks.map (fun x => x.id)).contains d)
        = (parseDeps2 desc).filter (fun d => (tasks.map (fun x => x.id)).contains d)) →
      buildDependencyGraph parseDeps tasks = buildDependencyGraph parseDeps2 tasks) := by
  refine ⟨depsOf_build parseDeps tasks t hnd ht, ?_, ?_⟩
  · intro hdangling
    have hdeps : depsOf (buildDependencyGraph parseDeps tasks) t.id = [] := by
      rw [depsOf_build parseDeps tasks t hnd ht, List.filter_eq_nil_iff]
      intro d hd hcon
      exact hdangling d hd (List.elem_iff.mp hcon)
    refine ⟨hdeps, ?_⟩
    have htid : t.id ∈ keys (buildDependencyGraph parseDeps tasks) := by
      rw [keys_build]
      exact List.mem_map_of_mem (fun x => x.id) ht
    have hkne : keys (buildDependencyGraph parseDeps tasks) ≠ [] := by
      intro h
      rw [h] at htid
      exact absurd htid (List.not_mem_nil _)
    obtain ⟨n, hn⟩ : ∃ n, (keys (buildDependencyGraph parseDeps tasks)).length = n + 1 := by
      cases hlen : (keys (buildDependencyGraph parseDeps tasks)).length with
      | zero => exact absurd (List.length_eq_zero.mp hlen) hkne
      | succ n => exact ⟨n, rfl⟩
    have hready : readyPred (buildDependencyGraph parseDeps tasks) [] t.id = true := by
      rw [readyPred_iff, hdeps]
      intro d hd
      exact absurd hd (List.not_mem_nil d)
    have htidready : t.id ∈ (keys (buildDependencyGraph parseDeps tasks)).filter
        (readyPred (buildDependencyGraph parseDeps tasks) []) :=
      List.mem_filter.mpr ⟨htid, hready⟩
    have hrdyne : (keys (buildDependencyGraph parseDeps tasks)).filter
        (readyPred (buildDependencyGraph parseDeps tasks) []) ≠ [] := by
      intro h
      rw [h] at htidready
      exact absurd htidready (List.not_mem_nil _)
    simp only [planWaves, topologicalSort]
    rw [hn, topoLoop_step _ n _ [] hkne hrdyne]
    exact ⟨_, _, rfl, (mem_sortPrio _ _ _).mpr htidready⟩
  · intro pd2 hagree
    unfold buildDependencyGraph
    refine congrArg fillDependents ?_
    apply List.map_congr_left
    intro x _
    rw [hagree x.description]

/-- Witness for C7 at a one-task set whose only reference is dangling. -/
theorem dangling_refs_dropped_witness :
    ((([⟨"D", "task d", "requires: [Z9]", 1⟩] : List TaskRecord).map
        (fun x => x.id)).Nodup ∧
     (⟨"D", "task d", "requires: [Z9]", 1⟩ : TaskRecord)
       ∈ ([⟨"D", "task d", "requires: [Z9]", 1⟩] : List TaskRecord)) ∧
    (depsOf (buildDependencyGraph (fun d => if d = "requires: [Z9]" then ["Z9"] else [])
        [⟨"D", "task d", "requires: [Z9]", 1⟩])
        (TaskRecord.id ⟨"D", "task d", "requires: [Z9]", 1⟩)
      = ((fun d => if d = "requires: [Z9]" then ["Z9"] else [])
          (TaskRecord.description ⟨"D", "task d", "requires: [Z9]", 1⟩)).filter
          (fun d => (([⟨"D", "task d", "requires: [Z9]", 1⟩] : List TaskRecord).map
            (fun x => x.id)).contains d) ∧
     ((∀ d ∈ (fun d => if d = "requires: [Z9]" then ["Z9"] else [])
          (TaskRecord.description ⟨"D", "task d", "requires: [Z9]", 1⟩),
        d ∉ ([⟨"D", "task d", "requires: [Z9]", 1⟩] : List TaskRecord).map (fun x => x.id)) →
      depsOf (buildDependencyGraph (fun d => if d = "requires: [Z9]" then ["Z9"] else [])
          [⟨"D", "task d", "requires: [Z9]", 1⟩])
          (TaskRecord.id ⟨"D", "task d", "requires: [Z9]", 1⟩) = [] ∧
      ∃ w0 rest, (planWaves (fun d => if d = "requires: [Z9]" then ["Z9"] else [])
          [⟨"D", "task d", "requires: [Z9]", 1⟩]).waves = w0 :: rest ∧
        TaskRecord.id ⟨"D", "task d", "requires: [Z9]", 1⟩ ∈ w0) ∧
     (∀ parseDeps2 : String → List String,
      (∀ desc, ((fun d => if d = "requires: [Z9]" then ["Z9"] else []) desc).filter
          (fun d => (([⟨"D", "task d", "requires: [Z9]", 1⟩] : List TaskRecord).map
            (fun x => x.id)).contains d)
        = (parseDeps2 desc).filter
          (fun d => (([⟨"D", "task d", "requires: [Z9]", 1⟩] : List TaskRecord).map
            (fun x => x.id)).contains d)) →
      buildDependencyGraph (fun d => if d = "requires: [Z9]" then ["Z9"] else [])
          [⟨"D", "task d", "requires: [Z9]", 1⟩]
        = buildDependencyGraph parseDeps2 [⟨"D", "task d", "requires: [Z9]", 1⟩])) :=
  ⟨⟨by decide, by decide⟩,
   dangling_refs_dropped (fun d => if d = "requires: [Z9]" then ["Z9"] else [])
     [⟨"D", "task d", "requires: [Z9]", 1⟩] ⟨"D", "task d", "requires: [Z9]", 1⟩
     (by decide) (by decide)⟩

/-! ## BatchRunner: data model (batch-llm-runner.js, shared.js) -/

/-- WorkItem: opaque record with a unique string `id` plus caller-defined
fields, abstracted as `payload`; identity, dedup and checkpoint matching
are by `id` only. -/
structure WorkItem where
  id : String
  payload : String
deriving DecidableEq, Repr

/-- ResultRecord: the `{id: item.id, ...result}` object `run` appends to
`progress.results`; the status-specific extra fields are abstracted as the
optional `reason` (the field the `catch` branch writes). -/
structure ResultRecord where
  id : String
  status : String
  reason : Option String
deriving DecidableEq, Repr

/-- Progress checkpoint state `{status, items, completed, results}`; the
`startedAt` wall-clock timestamp is omitted from the embedding. -/
structure Progress where
  status : String
  items : List WorkItem
  completed : List String
  results : List ResultRecord
deriving DecidableEq, Repr

/-- `readJsonSafe(filePath, defaultValue)` (shared.js lines 62-69): `parsed`
is `some v` when the file exists, is readable and parses as JSON, and
`none` otherwise (any failure lands in the `catch`); the default is
returned in the latter case and no error is raised. -/
def readJsonSafe {α : Type} (parsed : Option α) (dflt : α) : α :=
  parsed.getD dflt

/-- `writeJsonSafe(filePath, data)` (shared.js lines 77-84): the filesystem
write either succeeds (`Except.ok`) or fails (`Except.error`); the `catch`
turns the failure into the return value `false` instead of re-raising, so
the caller never sees an exception. -/
def writeJsonSafe (fsOutcome : Except String Unit) : Bool :=
  match fsOutcome with
  | .ok _ => true
  | .error _ => false

/-! ## runCodeagent (batch-llm-runner.js lines 50-107) -/

/-- The resolved value of `runCodeagent`:
`{success, output, sessionId, error}`. -/
structure CodeagentResult where
  success : Bool
  output : String
  sessionId : Option String
  error : Option String
deriving DecidableEq, Repr

/-- JS `String.prototype.trim`: strip leading and trailing whitespace
(kept executable on the character list so concrete outcomes evaluate). -/
def jsTrim (s : String) : String :=
  ⟨((s.data.dropWhile Char.isWhitespace).reverse.dropWhile Char.isWhitespace).reverse⟩

/-- Observable behaviour of the spawned `codeagent-wrapper` child process:
the timer fires first (`timedOut`, carrying the stdout captured so far), or
`close` fires first with an exit code and the captured stdout, or the
`error` event fires (spawn failure). -/
inductive ChildBehavior where
  | timedOut (stdoutSoFar : String)
  | closed (code : Int) (stdout : String)
  | failed (message : String)
deriving DecidableEq, Repr

/-- `runCodeagent` as a function of the child behaviour; `sid` is the
session id scraped from stderr (if any). Mirrors the three `resolve` sites:
the timeout handler (lines 63-69, which kills the child and reports
`error: 'timeout'` with the untrimmed partial stdout), the `close` handler
(lines 79-94) and the `error` handler (lines 96-101). -/
def runCodeagent (sid : Option String) : ChildBehavior → CodeagentResult
  | .timedOut sofar => ⟨false, sofar, sid, some "timeout"⟩
  | .closed code out =>
      if code = 0 ∧ jsTrim out ≠ "" then
        ⟨true, jsTrim out, sid, none⟩
      else
        ⟨false, jsTrim out, sid,
          some (if code = 0 then "empty output" else "exit code " ++ toString code)⟩
  | .failed msg => ⟨false, "", sid, some msg⟩

/-! ## runWithConcurrency (batch-llm-runner.js lines 112-130)

The pool is embedded as a small-step transition system over the event loop:
the control loop starts queued handlers one at a time, the `executing` set
holds the unsettled handler promises, and the loop suspends in
`await Promise.race(executing)` exactly when `executing.size >= concurrency`
after a start. Settling any in-flight handler deletes its promise from
`executing` (the `.then` on line 118) and resolves a pending race. -/

/-- Pool state: `pending` counts tasks not yet started, `inFlight` the
handler invocations started and not yet settled (`executing.size`), and
`blocked` whether the control loop is suspended in `await Promise.race`. -/
structure PoolState where
  pending : Nat
  inFlight : Nat
  blocked : Bool
deriving DecidableEq, Repr

/-- Event-loop transitions of the pool with concurrency limit `N`. -/
inductive PoolStep (N : Nat) : PoolState → PoolState → Prop where
  | start : ∀ p f, PoolStep N ⟨p + 1, f, false⟩ ⟨p, f + 1, decide (N ≤ f + 1)⟩
  | finish : ∀ p f b, PoolStep N ⟨p, f + 1, b⟩ ⟨p, f, false⟩

/-- Initial pool state for `total` queued items. -/
def poolInit (total : Nat) : PoolState := ⟨total, 0, false⟩

/-- A pool state is reachable during a `runWithConcurrency` execution. -/
def PoolReach (N total : Nat) (s : PoolState) : Prop :=
  Relation.ReflTransGen (PoolStep N) (poolInit total) s

/-! ## BatchRunner.run (batch-llm-runner.js lines 193-284)

`run` is embedded as a pure function of (a) the parsed checkpoint-file
content, (b) the resume flag, (c) the result of `handlers.scan(cwd)`, (d)
the per-item handler outcome `exec` (the composite of `buildPrompt`,
`runCodeagent` and `handleResult` for that item, or the exception the
`catch` on line 241 receives), (e) the completion order of the processed
items, and (f) the filesystem outcome of checkpoint writes. The `results`
array returned by `runWithConcurrency` is ordered by `Promise.all` in item
start order (the promises are pushed in loop order on line 122); the
completion order matters to the output only through the resume branch's
`existingResults` aliasing of `progress.results` (see
`existingResultsAtSpread`). The in-memory `progress` mutation order is
modelled by `snapshots` below, parameterised over the same arbitrary
completion order. -/

/-- Outcome of processing one item inside the pool handler: either
`handleResult`'s record fields (`ok`), or an exception thrown anywhere in
the per-item `try` block (`threw`). -/
inductive HandlerOutcome where
  | ok (status : String) (reason : Option String)
  | threw (msg : String)
deriving DecidableEq, Repr

/-- The ResultRecord recorded for one item: `{id: item.id, ...result}` on
the success path (line 236), `{id, status: 'error', reason: e.message}`
from the `catch` (line 243). -/
def recordOf (item : WorkItem) : HandlerOutcome → ResultRecord
  | .ok st r => ⟨item.id, st, r⟩
  | .threw m => ⟨item.id, "error", some m⟩

/-- One item completion: push the item's id onto `progress.completed` and
its record onto `progress.results` (lines 235-236 and 245-246; JS `push`
appends at the end). -/
def stepProgress (exec : WorkItem → HandlerOutcome) (p : Progress) (item : WorkItem) :
    Progress :=
  { p with completed := p.completed ++ [item.id],
           results := p.results ++ [recordOf item (exec item)] }

/-- The chain of in-memory `progress` states observed between item
completions, for a given completion order: the state before any completion
followed by the state after each completion. Each element is exactly what
`saveProgress` persists at that point (the initial save on line 223 and the
per-item saves on lines 237 and 247). -/
def snapshots (exec : WorkItem → HandlerOutcome) (p : Progress) :
    List WorkItem → List Progress
  | [] => [p]
  | it :: rest => p :: snapshots exec (stepProgress exec p it) rest

namespace BatchRunner

/-- `BatchRunner.loadProgress` (batch-llm-runner.js lines 169-176):
`readJsonSafe` with the idle default. -/
def loadProgress (file : Option Progress) : Progress :=
  readJsonSafe file { status := "idle", items := [], completed := [], results := [] }

/-- `BatchRunner.saveProgress` (batch-llm-runner.js lines 178-180): awaits
`writeJsonSafe` and discards its boolean result, so a failed write is
indistinguishable from a successful one to `run`. -/
def saveProgress (fsOutcome : Except String Unit) : Unit :=
  let _ := writeJsonSafe fsOutcome
  ()

end BatchRunner

/-- The `itemsToProcess` local of `run` (lines 205-214): on resume with a
running checkpoint, the checkpoint's items minus the completed ids
(`!completedSet.has(item.id)`); otherwise the fresh scan result. -/
def itemsToProcess (prior : Progress) (resume : Bool) (scanItems : List WorkItem) :
    List WorkItem :=
  if resume ∧ prior.status = "running" then
    prior.items.filter (fun it => ! prior.completed.contains it.id)
  else scanItems

/-- The `existingResults` local of `run` at its binding (lines 203, 209):
the prior checkpoint's results on resume with a running checkpoint, else
`[]`. NOTE: in the resume branch the binding aliases the `progress.results`
array, whose content later grows as handlers push records onto it;
`existingResultsAtSpread` below gives the aliased array's content at the
final spread. -/
def existingResults (prior : Progress) (resume : Bool) : List ResultRecord :=
  if resume ∧ prior.status = "running" then prior.results else []

/-- The content of the `existingResults` array at the time of the final
spread `[...existingResults, ...results]` (line 253). In the resume branch
`existingResults = progress.results` (line 209) binds the array itself, and
every handler pushes the completed item's record onto that same array
(lines 236, 246), so at spread time it holds the prior records followed by
the new records in completion order (`order` is the completion order of the
processed items). In the fresh branch it is the untouched `[]` from line
203 — the handlers push onto the newly created `progress` object of line
216, a different array. -/
def existingResultsAtSpread (prior : Progress) (resume : Bool)
    (exec : WorkItem → HandlerOutcome) (order : List WorkItem) : List ResultRecord :=
  if resume ∧ prior.status = "running" then
    prior.results ++ order.map (fun it => recordOf it (exec it))
  else []

/-- The in-memory `progress` object at the start of processing (lines
205-224): the prior checkpoint on resume with a running checkpoint, else a
fresh running Progress over the scanned items. -/
def initialProgress (prior : Progress) (resume : Bool) (scanItems : List WorkItem) :
    Progress :=
  if resume ∧ prior.status = "running" then prior
  else { status := "running", items := scanItems, completed := [], results := [] }

/-- `byStatus[r.status] = (byStatus[r.status] || 0) + 1` (lines 256-259):
bump the count for a status key in a JS object, embedded as an association
list in key insertion order. -/
def bumpStatus (m : List (String × Nat)) (s : String) : List (String × Nat) :=
  if m.any (fun q => q.1 = s) then
    m.map (fun q => if q.1 = s then (q.1, q.2 + 1) else q)
  else m ++ [(s, 1)]

/-- Contiguous substring containment on character lists, modelling JS
`String.prototype.includes`. -/
def includesSub (needle : List Char) : List Char → Bool
  | [] => needle.isEmpty
  | c :: rest => needle.isPrefixOf (c :: rest) || includesSub needle rest

/-- `r.status.includes('error')` (line 266): substring containment. -/
def hasErrorStatus (r : ResultRecord) : Bool :=
  includesSub "error".toList r.status.toList

/-- The `resultData` summary `run` writes to the result file and returns
(lines 268-283), together with the full aggregate `allResults` and the fact
that the checkpoint is cleared at the end (`clearProgress`, line 280); the
`completedAt` timestamp is omitted. -/
structure RunOutput where
  allResults : List ResultRecord
  status : String
  processed : Nat
  byStatus : List (String × Nat)
  failed : Nat
  failedList : List ResultRecord
  checkpointCleared : Bool
deriving DecidableEq, Repr

namespace BatchRunner

/-- `BatchRunner.run` (batch-llm-runner.js lines 193-284). `order` is the
completion order of the processed items (a permutation of the items to
process; left unconstrained here since completion timing is environmental).
In the resume branch, `existingResults` (line 209) aliases
`progress.results` — the very array every handler pushes the completed
item's record onto (lines 236, 246) — so by the time of the final spread
`allResults = [...existingResults, ...results]` (line 253) the aliased
array holds the prior records followed by the new records in completion
order, and the new records then appear a second time from `results`, the
`Promise.all` array in start order. In the fresh branch `existingResults`
keeps the pristine `[]`, so each record appears once. -/
def run (file : Option Progress) (resume : Bool) (scanItems : List WorkItem)
    (exec : WorkItem → HandlerOutcome) (order : List WorkItem)
    (fsOutcome : Except String Unit) : RunOutput :=
  let progress := loadProgress file
  let todo := itemsToProcess progress resume scanItems
  let _ := saveProgress fsOutcome
  let results := todo.map (fun it => recordOf it (exec it))
  let allResults := existingResultsAtSpread progress resume exec order ++ results
  let byStatus := allResults.foldl (fun m r => bumpStatus m r.status) []
  let errors := allResults.filter hasErrorStatus
  { allResults := allResults,
    status := "success",
    processed := allResults.length,
    byStatus := byStatus,
    failed := errors.length,
    failedList := errors,
    checkpointCleared := true }

end BatchRunner

/-! ## Runner claims -/

/-- C1: the claim is refuted by a resume-aliasing bug in the code. In the
resume branch `existingResults` (line 209) aliases `progress.results`, and
each handler pushes the completed item's record onto that same array
(lines 236, 246), so the final `allResults = [...existingResults,
...results]` (line 253) contains every newly processed item's record
twice — the prior records, then the new records in completion order, then
the new records again in start order — and `processed` double-counts them,
contradicting the claimed "prior results list with the new results
appended". The run does still process exactly the checkpoint items whose
id is not in `completed` (last conjunct). Evaluated at the spec's own
scenario `items = {A,B,C,D}`, `completed = {A,B}`, with completion order D
then C: the aggregate has 6 records instead of 4. -/
theorem resume_aggregate_duplicates_bug :
    (BatchRunner.run (some ⟨"running",
        [⟨"A", "1"⟩, ⟨"B", "2"⟩, ⟨"C", "3"⟩, ⟨"D", "4"⟩], ["A", "B"],
        [⟨"A", "updated", none⟩, ⟨"B", "skipped", none⟩]⟩) true []
        (fun _ => HandlerOutcome.ok "processed" none)
        [⟨"D", "4"⟩, ⟨"C", "3"⟩] (Except.ok ())).allResults
      = [⟨"A", "updated", none⟩, ⟨"B", "skipped", none⟩,
         ⟨"D", "processed", none⟩, ⟨"C", "processed", none⟩,
         ⟨"C", "processed", none⟩, ⟨"D", "processed", none⟩] ∧
    (BatchRunner.run (some ⟨"running",
        [⟨"A", "1"⟩, ⟨"B", "2"⟩, ⟨"C", "3"⟩, ⟨"D", "4"⟩], ["A", "B"],
        [⟨"A", "updated", none⟩, ⟨"B", "skipped", none⟩]⟩) true []
        (fun _ => HandlerOutcome.ok "processed" none)
        [⟨"D", "4"⟩, ⟨"C", "3"⟩] (Except.ok ())).processed = 6 ∧
    itemsToProcess ⟨"running",
        [⟨"A", "1"⟩, ⟨"B", "2"⟩, ⟨"C", "3"⟩, ⟨"D", "4"⟩], ["A", "B"],
        [⟨"A", "updated", none⟩, ⟨"B", "skipped", none⟩]⟩ true []
      = [⟨"C", "3"⟩, ⟨"D", "4"⟩] := by
  decide

/-- C10: if the Progress checkpoint file is missing, unreadable or not
valid JSON (parsed content `none`), `loadProgress` returns the default
`{status: "idle", items: [], completed: [], results: []}` rather than
raising, and a run invoked with `resume = true` over such a checkpoint
falls back to a fresh scan of all items with an empty prior-results list. -/
theorem invalid_checkpoint_defaults_fresh (scanItems : List WorkItem)
    (exec : WorkItem → HandlerOutcome) (fsOutcome : Except String Unit) :
    BatchRunner.loadProgress none
      = { status := "idle", items := [], completed := [], results := [] } ∧
    itemsToProcess (BatchRunner.loadProgress none) true scanItems = scanItems ∧
    existingResults (BatchRunner.loadProgress none) true = [] ∧
    (∀ order : List WorkItem,
      (BatchRunner.run none true scanItems exec order fsOutcome).allResults
        = scanItems.map (fun it => recordOf it (exec it))) := by
  refine ⟨rfl, ?_, ?_, ?_⟩
  · simp [itemsToProcess, BatchRunner.loadProgress, readJsonSafe]
  · simp [existingResults, BatchRunner.loadProgress, readJsonSafe]
  · intro order
    show existingResultsAtSpread (BatchRunner.loadProgress none) true exec order ++
        (itemsToProcess (BatchRunner.loadProgress none) true scanItems).map
          (fun it => recordOf it (exec it)) = _
    simp [existingResultsAtSpread, itemsToProcess, BatchRunner.loadProgress, readJsonSafe]

/-- Invariant preservation along the snapshot chain, for an arbitrary
completion order whose ids are fresh for the starting progress. -/
theorem snapshots_invariant_aux (exec : WorkItem → HandlerOutcome) (U : List String) :
    ∀ (order : List WorkItem) (p : Progress),
      (p.completed ++ order.map (fun it => it.id)).Nodup →
      p.results.length = p.completed.length →
      (∀ c ∈ p.completed ++ order.map (fun it => it.id), c ∈ U) →
      ∀ q ∈ snapshots exec p order,
        q.completed.Nodup ∧ (∀ c ∈ q.completed, c ∈ U) ∧
        q.results.length = q.completed.length := by
  intro order
  induction order with
  | nil =>
    intro p hnd hlen hU q hq
    rw [List.map_nil, List.append_nil] at hnd hU
    have hq' : q = p := by simpa [snapshots] using hq
    subst hq'
    exact ⟨hnd, hU, hlen⟩
  | cons it rest ih =>
    intro p hnd hlen hU q hq
    rcases List.mem_cons.mp hq with rfl | hq
    · refine ⟨?_, ?_, hlen⟩
      · exact hnd.sublist (List.sublist_append_left _ _)
      · intro c hc
        exact hU c (List.mem_append.mpr (Or.inl hc))
    · refine ih (stepProgress exec p it) ?_ ?_ ?_ q hq
      · rw [stepProgress, List.append_assoc]
        simpa using hnd
      · simp [stepProgress, hlen]
      · intro c hc
        refine hU c ?_
        rw [stepProgress] at hc
        rw [List.append_assoc] at hc
        simpa using hc

/-- C3: for every run whose scan produces items with pairwise-distinct ids
(the fresh-scan branch of `run`), the in-memory Progress state — and hence
each snapshot persisted by `saveProgress` — satisfies, at every point
between item completions and for every completion order: `completed` has no
duplicate ids, `completed` is a subset of the ids of `items`, and
`results.length` equals `completed.length`. -/
theorem checkpoint_invariant (prior : Progress) (resume : Bool)
    (scanItems : List WorkItem) (exec : WorkItem → HandlerOutcome)
    (order : List WorkItem)
    (hfresh : ¬ (resume = true ∧ prior.status = "running"))
    (hnd : (scanItems.map (fun it => it.id)).Nodup)
    (hperm : List.Perm order (itemsToProcess prior resume scanItems)) :
    ∀ q ∈ snapshots exec (initialProgress prior resume scanItems) order,
      q.completed.Nodup ∧ (∀ c ∈ q.completed, c ∈ scanItems.map (fun it => it.id)) ∧
      q.results.length = q.completed.length := by
  have hfresh' : ¬ ((resume : Prop) ∧ prior.status = "running") := by
    intro h
    exact hfresh ⟨h.1, h.2⟩
  have hinit : initialProgress prior resume scanItems
      = { status := "running", items := scanItems, completed := [], results := [] } := by
    unfold initialProgress
    rw [if_neg hfresh']
  have htodo : itemsToProcess prior resume scanItems = scanItems := by
    unfold itemsToProcess
    rw [if_neg hfresh']
  rw [htodo] at hperm
  rw [hinit]
  have hpermids := hperm.map (fun it => it.id)
  refine snapshots_invariant_aux exec (scanItems.map (fun it => it.id)) order
    { status := "running", items := scanItems, completed := [], results := [] } ?_ rfl ?_
  · simpa using hpermids.nodup_iff.mpr hnd
  · intro c hc
    rw [List.nil_append] at hc
    exact hpermids.mem_iff.mp hc

/-- Witness for C3 with two items completed in reverse order. -/
theorem checkpoint_invariant_witness :
    (¬ (true = true ∧ Progress.status ⟨"idle", [], [], []⟩ = "running") ∧
     (([⟨"A", "1"⟩, ⟨"B", "2"⟩] : List WorkItem).map (fun it => it.id)).Nodup ∧
     List.Perm [(⟨"B", "2"⟩ : WorkItem), ⟨"A", "1"⟩]
       (itemsToProcess ⟨"idle", [], [], []⟩ true [⟨"A", "1"⟩, ⟨"B", "2"⟩])) ∧
    (∀ q ∈ snapshots (fun _ => HandlerOutcome.ok "processed" none)
        (initialProgress ⟨"idle", [], [], []⟩ true [⟨"A", "1"⟩, ⟨"B", "2"⟩])
        [⟨"B", "2"⟩, ⟨"A", "1"⟩],
      q.completed.Nodup ∧
      (∀ c ∈ q.completed,
        c ∈ ([⟨"A", "1"⟩, ⟨"B", "2"⟩] : List WorkItem).map (fun it => it.id)) ∧
      q.results.length = q.completed.length) :=
  ⟨⟨by decide, by decide, by decide⟩,
   checkpoint_invariant ⟨"idle", [], [], []⟩ true [⟨"A", "1"⟩, ⟨"B", "2"⟩]
     (fun _ => HandlerOutcome.ok "processed" none) [⟨"B", "2"⟩, ⟨"A", "1"⟩]
     (by decide) (by decide) (by decide)⟩

/-- C8: with concurrency limit `N ≥ 1`, in every state reachable during a
`runWithConcurrency` execution — for any number of queued items — at most
`N` handler invocations are simultaneously in flight. -/
theorem concurrency_bound (N total : Nat) (hN : 1 ≤ N) (s : PoolState)
    (hreach : PoolReach N total s) : s.inFlight ≤ N := by
  have hinv : ∀ t : PoolState, PoolReach N total t →
      t.inFlight ≤ N ∧ (t.blocked = false → t.inFlight < N) := by
    intro t ht
    induction ht with
    | refl => exact ⟨Nat.zero_le N, fun _ => hN⟩
    | tail hsteps hstep ih =>
      cases hstep with
      | start p f =>
        rcases ih with ⟨h1, h2⟩
        have hf : f < N := h2 rfl
        refine ⟨hf, ?_⟩
        intro hb
        have := of_decide_eq_false hb
        simp only [PoolState.inFlight]
        omega
      | finish p f b =>
        rcases ih with ⟨h1, _⟩
        simp only [PoolState.inFlight, PoolState.blocked] at h1 ⊢
        exact ⟨by omega, fun _ => by omega⟩
  exact (hinv s hreach).1

/-- Witness for C8: with `N = 2` and 5 queued items, after two starts the
pool is blocked with 2 in flight, and the bound holds. -/
theorem concurrency_bound_witness :
    (1 ≤ 2 ∧ PoolReach 2 5 ⟨3, 2, true⟩) ∧ PoolState.inFlight ⟨3, 2, true⟩ ≤ 2 :=
  ⟨⟨by decide,
    Relation.ReflTransGen.tail
      (Relation.ReflTransGen.tail Relation.ReflTransGen.refl (PoolStep.start 4 0))
      (PoolStep.start 3 1)⟩,
   concurrency_bound 2 5 (by decide) ⟨3, 2, true⟩
     (Relation.ReflTransGen.tail
       (Relation.ReflTransGen.tail Relation.ReflTransGen.refl (PoolStep.start 4 0))
       (PoolStep.start 3 1))⟩

/-! ## Helper lemmas: the three failure strings are pairwise distinct -/

theorem exit_code_ne_timeout (s : String) : "exit code " ++ s ≠ "timeout" := by
  intro h
  have hl := congrArg String.length h
  rw [String.length_append] at hl
  have h10 : ("exit code " : String).length = 10 := rfl
  have h7 : ("timeout" : String).length = 7 := rfl
  omega

theorem exit_code_ne_empty_output (s : String) : "exit code " ++ s ≠ "empty output" := by
  intro h
  have hd := congrArg String.data h
  rw [String.data_append] at hd
  have h1 : ("exit code " : String).data
      = ['e', 'x', 'i', 't', ' ', 'c', 'o', 'd', 'e', ' '] := rfl
  have h2 : ("empty output" : String).data
      = ['e', 'm', 'p', 't', 'y', ' ', 'o', 'u', 't', 'p', 'u', 't'] := rfl
  rw [h1, h2] at hd
  simp at hd

/-- C6: the external invocation's three failure modes — timeout (child
forcibly killed after `timeoutMs`), non-zero or errored exit, and zero exit
with empty output — each yield a distinct recorded outcome (`success` is
false and the `error` fields are pairwise distinct strings), none is
swallowed; and in the run, each item's recorded ResultRecord is a function
of that item's own outcome only (the aggregate is prior records plus
per-item records, never a function of a sibling's outcome), every
processed item still gets its ResultRecord appended to the aggregate (on a
resume run the `existingResults` aliasing appends it twice, but never zero
times), and an exception while handling an item is recorded as a
status-"error" record rather than aborting the run. -/
theorem failure_modes_distinct_isolated (sid : Option String)
    (sofar out badout msg : String) (c : Int) (hc : c ≠ 0) (hbad : jsTrim badout = "")
    (hmsg1 : msg ≠ "timeout") (hmsg2 : msg ≠ "empty output") :
    ((runCodeagent sid (.timedOut sofar)).error = some "timeout" ∧
     (runCodeagent sid (.closed c out)).error = some ("exit code " ++ toString c) ∧
     (runCodeagent sid (.closed 0 badout)).error = some "empty output" ∧
     (runCodeagent sid (.failed msg)).error = some msg) ∧
    ((runCodeagent sid (.timedOut sofar)).success = false ∧
     (runCodeagent sid (.closed c out)).success = false ∧
     (runCodeagent sid (.closed 0 badout)).success = false ∧
     (runCodeagent sid (.failed msg)).success = false) ∧
    ((runCodeagent sid (.timedOut sofar)).error ≠ (runCodeagent sid (.closed c out)).error ∧
     (runCodeagent sid (.timedOut sofar)).error ≠ (runCodeagent sid (.closed 0 badout)).error ∧
     (runCodeagent sid (.closed c out)).error ≠ (runCodeagent sid (.closed 0 badout)).error ∧
     (runCodeagent sid (.failed msg)).error ≠ (runCodeagent sid (.timedOut sofar)).error ∧
     (runCodeagent sid (.failed msg)).error ≠ (runCodeagent sid (.closed 0 badout)).error) ∧
    ((∀ (file : Option Progress) (resume : Bool) (scanItems : List WorkItem)
        (exec : WorkItem → HandlerOutcome) (order : List WorkItem)
        (fsOutcome : Except String Unit),
      (BatchRunner.run file resume scanItems exec order fsOutcome).allResults
        = existingResultsAtSpread (BatchRunner.loadProgress file) resume exec order ++
          (itemsToProcess (BatchRunner.loadProgress file) resume scanItems).map
            (fun it => recordOf it (exec it))) ∧
     (∀ (file : Option Progress) (resume : Bool) (scanItems : List WorkItem)
        (exec : WorkItem → HandlerOutcome) (order : List WorkItem)
        (fsOutcome : Except String Unit),
      ∀ it ∈ itemsToProcess (BatchRunner.loadProgress file) resume scanItems,
        recordOf it (exec it)
          ∈ (BatchRunner.run file resume scanItems exec order fsOutcome).allResults) ∧
     (∀ (it : WorkItem) (m : String),
       recordOf it (.threw m) = ⟨it.id, "error", some m⟩)) := by
  have herr1 : (runCodeagent sid (.timedOut sofar)).error = some "timeout" := rfl
  have herr2 : (runCodeagent sid (.closed c out)).error
      = some ("exit code " ++ toString c) := by
    simp [runCodeagent, hc]
  have herr3 : (runCodeagent sid (.closed 0 badout)).error = some "empty output" := by
    simp [runCodeagent, hbad]
  have herr4 : (runCodeagent sid (.failed msg)).error = some msg := rfl
  refine ⟨⟨herr1, herr2, herr3, herr4⟩, ?_, ?_, ?_⟩
  · refine ⟨rfl, ?_, ?_, rfl⟩
    · simp [runCodeagent, hc]
    · simp [runCodeagent, hbad]
  · rw [herr1, herr2, herr3, herr4]
    refine ⟨?_, ?_, ?_, ?_, ?_⟩
    · intro h
      exact exit_code_ne_timeout (toString c) (Option.some.inj h).symm
    · intro h
      exact absurd (Option.some.inj h) (by decide)
    · intro h
      exact exit_code_ne_empty_output (toString c) (Option.some.inj h)
    · intro h
      exact hmsg1 (Option.some.inj h)
    · intro h
      exact hmsg2 (Option.some.inj h)
  · refine ⟨fun _ _ _ _ _ _ => rfl, ?_, fun _ _ => rfl⟩
    intro file resume scanItems exec order fsOutcome it hit
    show recordOf it (exec it)
      ∈ existingResultsAtSpread (BatchRunner.loadProgress file) resume exec order ++
        (itemsToProcess (BatchRunner.loadProgress file) resume scanItems).map
          (fun it => recordOf it (exec it))
    exact List.mem_append.mpr (Or.inr (List.mem_map_of_mem _ hit))

/-- Witness for C6 at a nonzero exit code 1, a whitespace-only stdout and a
spawn failure message. -/
theorem failure_modes_distinct_isolated_witness :
    ((1 : Int) ≠ 0 ∧ jsTrim " " = "" ∧
     ("spawn codeagent-wrapper ENOENT" : String) ≠ "timeout" ∧
     ("spawn codeagent-wrapper ENOENT" : String) ≠ "empty output") ∧
    (((runCodeagent none (.timedOut "")).error = some "timeout" ∧
      (runCodeagent none (.closed 1 "out")).error = some ("exit code " ++ toString (1 : Int)) ∧
      (runCodeagent none (.closed 0 " ")).error = some "empty output" ∧
      (runCodeagent none (.failed "spawn codeagent-wrapper ENOENT")).error
        = some "spawn codeagent-wrapper ENOENT") ∧
     ((runCodeagent none (.timedOut "")).success = false ∧
      (runCodeagent none (.closed 1 "out")).success = false ∧
      (runCodeagent none (.closed 0 " ")).success = false ∧
      (runCodeagent none (.failed "spawn codeagent-wrapper ENOENT")).success = false) ∧
     ((runCodeagent none (.timedOut "")).error ≠ (runCodeagent none (.closed 1 "out")).error ∧
      (runCodeagent none (.timedOut "")).error ≠ (runCodeagent none (.closed 0 " ")).error ∧
      (runCodeagent none (.closed 1 "out")).error ≠ (runCodeagent none (.closed 0 " ")).error ∧
      (runCodeagent none (.failed "spawn codeagent-wrapper ENOENT")).error
        ≠ (runCodeagent none (.timedOut "")).error ∧
      (runCodeagent none (.failed "spawn codeagent-wrapper ENOENT")).error
        ≠ (runCodeagent none (.closed 0 " ")).error) ∧
     ((∀ (file : Option Progress) (resume : Bool) (scanItems : List WorkItem)
         (exec : WorkItem → HandlerOutcome) (order : List WorkItem)
         (fsOutcome : Except String Unit),
       (BatchRunner.run file resume scanItems exec order fsOutcome).allResults
         = existingResultsAtSpread (BatchRunner.loadProgress file) resume exec order ++
           (itemsToProcess (BatchRunner.loadProgress file) resume scanItems).map
             (fun it => recordOf it (exec it))) ∧
      (∀ (file : Option Progress) (resume : Bool) (scanItems : List WorkItem)
         (exec : WorkItem → HandlerOutcome) (order : List WorkItem)
         (fsOutcome : Except String Unit),
       ∀ it ∈ itemsToProcess (BatchRunner.loadProgress file) resume scanItems,
         recordOf it (exec it)
           ∈ (BatchRunner.run file resume scanItems exec order fsOutcome).allResults) ∧
      (∀ (it : WorkItem) (m : String),
        recordOf it (.threw m) = ⟨it.id, "error", some m⟩))) :=
  ⟨⟨by decide, by decide, by decide, by decide⟩,
   failure_modes_distinct_isolated none "" "out" " " "spawn codeagent-wrapper ENOENT" 1
     (by decide) (by decide) (by decide) (by decide)⟩

/-- C9 counterexample: a concrete run whose checkpoint write fails with a
disk error completes normally and returns exactly the same output as a run
whose writes succeed: the write failure is not fatal, refuting the claim
that the run does not continue as if the checkpoint had been persisted. -/
theorem checkpoint_write_failure_not_fatal_cex :
    BatchRunner.run none false [⟨"A", "p"⟩] (fun _ => HandlerOutcome.ok "processed" none)
        [⟨"A", "p"⟩] (Except.error "ENOSPC: no space left on device")
      = BatchRunner.run none false [⟨"A", "p"⟩] (fun _ => HandlerOutcome.ok "processed" none)
        [⟨"A", "p"⟩] (Except.ok ()) ∧
    (BatchRunner.run none false [⟨"A", "p"⟩] (fun _ => HandlerOutcome.ok "processed" none)
        [⟨"A", "p"⟩] (Except.error "ENOSPC: no space left on device")).processed = 1 ∧
    (BatchRunner.run none false [⟨"A", "p"⟩] (fun _ => HandlerOutcome.ok "processed" none)
        [⟨"A", "p"⟩] (Except.error "ENOSPC: no space left on device")).checkpointCleared
      = true ∧
    writeJsonSafe (Except.error "ENOSPC: no space left on device") = false :=
  ⟨rfl, by decide, rfl, rfl⟩

/-- C9 amended: per-item failures are recovered locally — an exception
while handling an item is recorded as a status-"error" record and every
processed item still gets its record in the aggregate — but a failure to
write the Progress checkpoint file is NOT fatal to the run: `writeJsonSafe`
catches the filesystem error and returns `false`, `saveProgress` discards
that boolean, and the run's output is identical to that of a run whose
checkpoint writes succeed. -/
theorem checkpoint_write_failure_swallowed (file : Option Progress) (resume : Bool)
    (scanItems : List WorkItem) (exec : WorkItem → HandlerOutcome)
    (order : List WorkItem) (e : String) :
    writeJsonSafe (Except.error e) = false ∧
    BatchRunner.saveProgress (Except.error e) = BatchRunner.saveProgress (Except.ok ()) ∧
    (∀ fsOutcome : Except String Unit,
      BatchRunner.run file resume scanItems exec order fsOutcome
        = BatchRunner.run file resume scanItems exec order (Except.ok ())) ∧
    (BatchRunner.run file resume scanItems exec order (Except.error e)).allResults
      = existingResultsAtSpread (BatchRunner.loadProgress file) resume exec order ++
        (itemsToProcess (BatchRunner.loadProgress file) resume scanItems).map
          (fun it => recordOf it (exec it)) ∧
    (∀ (it : WorkItem) (m : String),
      recordOf it (HandlerOutcome.threw m) = ⟨it.id, "error", some m⟩) :=
  ⟨rfl, rfl, fun _ => rfl, rfl, fun _ _ => rfl⟩

end MkSkills
